import Mathlib

/-!
# Verification of the Alerta dialog core

A shallow embedding of the `alerta` crate's dialog core:

* the interaction state machine (`Ui::process_event` in `crates/alerta/src/ui.rs`),
* the window layout computation (`Ui::new` in `crates/alerta/src/ui.rs`),
* the glyph layout / soft-wrapping algorithm (`Renderer::layout` in
  `crates/alerta/src/ui/font.rs`).

Machine integers (`i32`) are modelled by `Int`; all quantities involved are far
from the `i32` range on the domains the theorems quantify over (surface sizes
are non-negative, which the relevant hypotheses record).  The `f32` pen
coordinates of the glyph layouter are modelled by `ℚ`, with the font metric
functions (`h_advance`, `kern`, `height`, `line_gap`) kept abstract as a
parameter structure, so the theorems hold for every font.
-/

namespace Alerta

/-! ## Basic geometry (euclid `IntPoint` / `Size2D<i32>`) -/

/-- `raqote::IntPoint`, i.e. `euclid::Point2D<i32>`. -/
structure IntPoint where
  x : Int
  y : Int
deriving DecidableEq, Repr

/-- `euclid::Size2D<i32, ()>`. -/
structure Size where
  width : Int
  height : Int
deriving DecidableEq, Repr

/-! ## Event vocabulary

The `alerta` crate's event enums.  Their declarations live in the crate root;
the variants below are exactly those constructed in `x11.rs` and consumed in
`ui.rs`. -/

/-- Mouse buttons distinguished by the crate (`x11.rs::mouse_button`). -/
inductive MouseButton where
  | Left
  | Middle
  | Right
deriving DecidableEq, Repr

/-- Cursor coordinates carried by enter/move events. -/
structure CursorPos where
  x : Int
  y : Int
deriving DecidableEq, Repr

/-- The normalized window events consumed by `Ui::process_event`. -/
inductive WindowEvent where
  | CloseRequested
  | RedrawRequested
  | CursorEnter (pos : CursorPos)
  | CursorMove (pos : CursorPos)
  | CursorLeave
  | ButtonPress (btn : MouseButton)
  | ButtonRelease (btn : MouseButton)
deriving DecidableEq, Repr

/-- The terminal result of a dialog session. -/
inductive Answer where
  | Button (i : Nat)
  | Closed
deriving DecidableEq, Repr

/-! ## Buttons and hit testing (`ui.rs`) -/

/-- The `Button` struct of `ui.rs`, with the rendered text `DrawTarget`
abstracted to its size (the only attribute layout depends on). -/
structure Button where
  /-- Text size + padding. -/
  min_size : Size
  size : Size
  pos : IntPoint
  textSize : Size
deriving DecidableEq, Repr

/-- `Button::contains` (ui.rs lines 92-97). -/
def Button.contains (b : Button) (pt : IntPoint) : Bool :=
  pt.x ≥ b.pos.x && pt.y ≥ b.pos.y
    && pt.x < b.pos.x + b.size.width && pt.y < b.pos.y + b.size.height

/-! ## The interaction state machine (`Ui::process_event`) -/

/-- The interaction-relevant fields of the `Ui` struct. -/
structure UiState where
  buttons : List Button
  cursor_pos : Option IntPoint
  mouse_pressed : Bool
  mouse_dragging : Bool
deriving DecidableEq, Repr

/-- `Ui::process_event` (ui.rs lines 184-207).  Returns the updated state and
the produced answer, if any.  Note that the `ButtonRelease(Left)` arm returns
`Answer::Button(i)` *early*, before the two flag-clearing assignments, so the
state is returned unchanged in that case. -/
def processEvent (s : UiState) (event : WindowEvent) : UiState × Option Answer :=
  match event with
  | .CloseRequested => (s, some .Closed)
  | .CursorEnter pos | .CursorMove pos =>
      ({ s with cursor_pos := some ⟨pos.x, pos.y⟩, mouse_dragging := s.mouse_pressed }, none)
  | .CursorLeave => ({ s with cursor_pos := none }, none)
  | .ButtonPress .Left => ({ s with mouse_pressed := true }, none)
  | .ButtonRelease .Left =>
      match s.cursor_pos with
      | some p =>
          match s.buttons.findIdx? (fun btn => btn.contains p) with
          | some i =>
              if !s.mouse_dragging then
                (s, some (.Button i))
              else
                ({ s with mouse_pressed := false, mouse_dragging := false }, none)
          | none => ({ s with mouse_pressed := false, mouse_dragging := false }, none)
      | none => ({ s with mouse_pressed := false, mouse_dragging := false }, none)
  | _ => (s, none)

/-- Modelled from the spec: the event loop driving `Ui::process_event` lives in
the crate root (not among the available sources).  Per §4.4 ("the machine is
done the instant a terminal Answer is produced; no further events are
processed") and §5 ("events are processed strictly in arrival order"), the loop
feeds events one at a time and stops at the first `Answer`. -/
def run (s : UiState) : List WindowEvent → Option Answer
  | [] => none
  | e :: es =>
      match processEvent s e with
      | (s', none) => run s' es
      | (_, some a) => some a

/-- The interaction state a freshly constructed `Ui` starts in
(`Ui::new` sets `cursor_pos: None, mouse_pressed: false, mouse_dragging: false`). -/
def initialState (buttons : List Button) : UiState :=
  { buttons := buttons, cursor_pos := none, mouse_pressed := false, mouse_dragging := false }

/-- A concrete 100x30 button at the origin, used in examples. -/
def exButton : Button :=
  { min_size := ⟨124, 34⟩, size := ⟨100, 30⟩, pos := ⟨0, 0⟩, textSize := ⟨100, 10⟩ }

/-- A concrete one-button state used as a hit-testing example: `exButton`,
cursor recorded at (5,5), mouse pressed, not dragging. -/
def exPressedState : UiState :=
  { buttons := [exButton]
    cursor_pos := some ⟨5, 5⟩
    mouse_pressed := true
    mouse_dragging := false }

/-! ## The layout engine (`Ui::new`, ui.rs lines 101-182)

The rendered surfaces are abstracted to their integer sizes: `iconSize` is the
icon surface's size, `msgSize` the size of the surface produced by rendering
the message text at the message width budget, and `btnTexts` the sizes of the
rendered button label surfaces.  Every other quantity `Ui::new` computes is
integer arithmetic on those, reproduced below. -/

/-- ui.rs line 65. -/
def WINDOW_PADDING : Int := 10
/-- ui.rs line 66. -/
def BTN_PADDING : Int := 12
/-- ui.rs line 67. -/
def SPACING : Int := 10
/-- ui.rs line 102. -/
def MIN_WIDTH : Int := 400
/-- ui.rs line 103. -/
def MIN_HEIGHT : Int := 100

/-- Rust `i32` division: truncates toward zero, and panics on a zero divisor
(modelled by `none`). -/
def checkedDiv (a b : Int) : Option Int :=
  if b = 0 then none else some (a.tdiv b)

/-- The geometry computed by `Ui::new`. -/
structure UiLayout where
  win_width : Int
  win_height : Int
  icon_pos : IntPoint
  message_pos : IntPoint
  buttons : List Button
  btn_height : Int
deriving DecidableEq, Repr

/-- The per-label button construction in `Ui::new` (ui.rs lines 125-136):
minimum size is the text size plus `2 * BTN_PADDING` in both axes; `size` and
`pos` start out zeroed and are assigned by the placement loop. -/
def mkButton (text : Size) : Button :=
  { min_size := ⟨text.width + 2 * BTN_PADDING, text.height + 2 * BTN_PADDING⟩
    size := ⟨0, 0⟩
    pos := ⟨0, 0⟩
    textSize := text }

/-- The running `btn_height` maximum accumulated while building the buttons
(ui.rs lines 122 and 129): `btn_height = cmp::max(btn_height, h)` starting
from `0`. -/
def btnRowHeight (btnTexts : List Size) : Int :=
  btnTexts.foldl (fun acc t => max acc (mkButton t).min_size.height) 0

/-- `win_width` after both `cmp::max` steps (ui.rs lines 141-144 and 152-156);
note the `saturating_sub(1)` on the button count. -/
def winWidth (iconSize msgSize : Size) (btnTexts : List Size) : Int :=
  let first := max MIN_WIDTH (iconSize.width + SPACING + msgSize.width + 2 * WINDOW_PADDING)
  let width_sum := (btnTexts.map fun t => (mkButton t).min_size.width).sum
  let required_width :=
    width_sum + 2 * WINDOW_PADDING + ((btnTexts.length - 1 : Nat) : Int) * SPACING
  max first required_width

/-- `win_height` (ui.rs lines 145-147). -/
def winHeight (iconSize msgSize : Size) (btnTexts : List Size) : Int :=
  let bh := btnRowHeight btnTexts
  let win_height_message := msgSize.height + bh + SPACING + 2 * WINDOW_PADDING
  let win_height_icon := iconSize.height + bh + SPACING * 2 + WINDOW_PADDING
  max MIN_HEIGHT (max win_height_message win_height_icon)

/-- `message_pos_y` (ui.rs lines 149-150). -/
def messagePosY (iconSize msgSize : Size) (btnTexts : List Size) : Int :=
  let message_space_y :=
    winHeight iconSize msgSize btnTexts - btnRowHeight btnTexts - WINDOW_PADDING * 2 - SPACING
  (message_space_y - msgSize.height).tdiv 2 + WINDOW_PADDING

/-- `btn_width` (ui.rs lines 159-160): `i32` division by `buttons.len()`,
which panics for an empty button list. -/
def btnWidth (iconSize msgSize : Size) (btnTexts : List Size) : Option Int :=
  checkedDiv
    (winWidth iconSize msgSize btnTexts - WINDOW_PADDING * 2
      - SPACING * ((btnTexts.length : Int) - 1))
    (btnTexts.length : Int)

/-- The value `btn_width` takes for a non-empty button list (helper used to
state the layout characterization). -/
def btnWidthVal (iconSize msgSize : Size) (btnTexts : List Size) : Int :=
  (winWidth iconSize msgSize btnTexts - WINDOW_PADDING * 2
    - SPACING * ((btnTexts.length : Int) - 1)).tdiv (btnTexts.length : Int)

/-- The button placement loop of `Ui::new` (ui.rs lines 158-166): each button
gets `size = (btn_width, btn_height)` and `pos = (x, win_height - WINDOW_PADDING
- btn_height)`, and `x` advances by the just-assigned `btn.size.width` plus
`SPACING`. -/
def placeButtons (btn_width btn_height pos_y : Int) : Int → List Button → List Button
  | _, [] => []
  | x, btn :: rest =>
      { btn with size := ⟨btn_width, btn_height⟩, pos := ⟨x, pos_y⟩ }
        :: placeButtons btn_width btn_height pos_y (x + btn_width + SPACING) rest

/-- The geometry part of `Ui::new` (ui.rs lines 101-182).  Fails (as the Rust
code panics) exactly when the `btn_width` division divides by zero. -/
def uiNew (iconSize msgSize : Size) (btnTexts : List Size) : Option UiLayout :=
  match btnWidth iconSize msgSize btnTexts with
  | none => none
  | some bw =>
      let bh := btnRowHeight btnTexts
      let wh := winHeight iconSize msgSize btnTexts
      some
        { win_width := winWidth iconSize msgSize btnTexts
          win_height := wh
          icon_pos := ⟨WINDOW_PADDING, WINDOW_PADDING⟩
          message_pos :=
            ⟨iconSize.width + WINDOW_PADDING + SPACING, messagePosY iconSize msgSize btnTexts⟩
          buttons :=
            placeButtons bw bh (wh - WINDOW_PADDING - bh) WINDOW_PADDING (btnTexts.map mkButton)
          btn_height := bh }

/-- Spec-side formula (§4.2 step 2): a button's minimum size is its text size
plus `2 * BP` in both axes. -/
def specBtnMinSize (text : Size) : Size :=
  ⟨text.width + 2 * BTN_PADDING, text.height + 2 * BTN_PADDING⟩

/-- Spec-side formula (§4.2 step 2): the button row height is the maximum of
all button minimum heights. -/
def specBtnRowHeight (btnTexts : List Size) : Int :=
  match btnTexts.map fun t => (specBtnMinSize t).height with
  | [] => 0
  | h :: rest => rest.foldl max h

/-- Spec-side formula (§4.2 step 3): window width is
`max(W_MIN, iconWidth + S + messageWidth + 2P, sum of button minimum widths
+ 2P + S*(count-1))`. -/
def specWinWidth (iconSize msgSize : Size) (btnTexts : List Size) : Int :=
  max MIN_WIDTH <|
    max (iconSize.width + SPACING + msgSize.width + 2 * WINDOW_PADDING)
      ((btnTexts.map fun t => (specBtnMinSize t).width).sum + 2 * WINDOW_PADDING
        + SPACING * ((btnTexts.length : Int) - 1))

/-- Spec-side formula (§4.2 step 4): window height is
`max(H_MIN, messageHeight + buttonRowHeight + S + 2P,
iconHeight + buttonRowHeight + 2S + P)`. -/
def specWinHeight (iconSize msgSize : Size) (btnTexts : List Size) : Int :=
  max MIN_HEIGHT <|
    max (msgSize.height + specBtnRowHeight btnTexts + SPACING + 2 * WINDOW_PADDING)
      (iconSize.height + specBtnRowHeight btnTexts + 2 * SPACING + WINDOW_PADDING)

/-- Spec-side rectangle membership, matching the half-open convention of
`Button::contains`: `pt` lies in the rectangle with top-left `pos` and extent
`size`. -/
def rectContains (pos : IntPoint) (size : Size) (pt : IntPoint) : Bool :=
  pt.x ≥ pos.x && pt.y ≥ pos.y && pt.x < pos.x + size.width && pt.y < pos.y + size.height

/-- Example icon size (the built-in icons are 48x48). -/
def exIcon : Size := ⟨48, 48⟩
/-- Example rendered message surface size. -/
def exMsg : Size := ⟨100, 20⟩
/-- Example rendered button label sizes for a two-button dialog. -/
def exBtnTexts : List Size := [⟨30, 10⟩, ⟨40, 10⟩]

/-- The layout `uiNew exIcon exMsg exBtnTexts` evaluates to. -/
def exLayout : UiLayout :=
  { win_width := 400
    win_height := 112
    icon_pos := ⟨10, 10⟩
    message_pos := ⟨68, 24⟩
    buttons :=
      [{ min_size := ⟨54, 34⟩, size := ⟨185, 34⟩, pos := ⟨10, 68⟩, textSize := ⟨30, 10⟩ },
       { min_size := ⟨64, 34⟩, size := ⟨185, 34⟩, pos := ⟨205, 68⟩, textSize := ⟨40, 10⟩ }]
    btn_height := 34 }

/-- Button label sizes whose minimum widths (185 and 186) sum to 371, an odd
number: the button row's natural minimum width governs the window width
(401 > 400), and the division `371 / 2` loses a remainder pixel. -/
def exOddTexts : List Size := [⟨161, 10⟩, ⟨162, 10⟩]

/-- The layout `uiNew ⟨0,0⟩ ⟨0,0⟩ exOddTexts` evaluates to. -/
def exOddLayout : UiLayout :=
  { win_width := 401
    win_height := 100
    icon_pos := ⟨10, 10⟩
    message_pos := ⟨20, 28⟩
    buttons :=
      [{ min_size := ⟨185, 34⟩, size := ⟨185, 34⟩, pos := ⟨10, 56⟩, textSize := ⟨161, 10⟩ },
       { min_size := ⟨186, 34⟩, size := ⟨185, 34⟩, pos := ⟨205, 56⟩, textSize := ⟨162, 10⟩ }]
    btn_height := 34 }

/-! ## The glyph layout algorithm (`Renderer::layout`, ui/font.rs lines 105-155)

The `f32` pen coordinates are modelled by `ℚ`, and the font's metric functions
(`h_advance`, `kern`, `height`, `line_gap`) are kept abstract as a parameter
structure, so the theorems hold for every font.  A glyph is identified by the
character it was created from (`scaled_glyph(c)`); the kerning table is a
function of the two adjacent glyphs.  The final `outline_glyph` /
rasterization steps consume font outline data and are outside the layout
algorithm these claims are about. -/

/-- ui/font.rs line 158. -/
def ZWSP : Char := '\u200b'

/-- The non-breaking space (U+00A0), used by the crate's `nbsp` snapshot test. -/
def NBSP : Char := '\u00a0'

/-- Abstract font metrics: per-glyph horizontal advance, pairwise kerning,
line height and line gap. -/
structure FontMetrics where
  h_advance : Char → ℚ
  kern : Char → Char → ℚ
  height : ℚ
  line_gap : ℚ

/-- A positioned glyph (`ab_glyph::Glyph`): its identity and pen position. -/
structure Glyph where
  id : Char
  x : ℚ
  y : ℚ
deriving DecidableEq, Repr

/-- The mutable state of the layout loop: the accumulated glyph list (shared
across lines), the pen `x`/`y`, the index of the most recent soft-break
opportunity on the current line, and the previous glyph for kerning. -/
structure LayoutState where
  glyphs : List Glyph
  x : ℚ
  y : ℚ
  last_softbreak : Option Nat
  last : Option Char
deriving DecidableEq, Repr

/-- The pen x after kerning against the previous glyph
(ui/font.rs lines 119-121). -/
def kernedX (fm : FontMetrics) (s : LayoutState) (c : Char) : ℚ :=
  match s.last with
  | some l => s.x + fm.kern l c
  | none => s.x

/-- The glyph as positioned by the loop (ui/font.rs line 122). -/
def placedGlyph (fm : FontMetrics) (s : LayoutState) (c : Char) : Glyph :=
  ⟨c, kernedX fm s c, s.y⟩

/-- The pen x after the glyph's advance (ui/font.rs line 125). -/
def advancedX (fm : FontMetrics) (s : LayoutState) (c : Char) : ℚ :=
  kernedX fm s c + fm.h_advance c

/-- One iteration of the per-character layout loop (ui/font.rs lines 117-147).
A space or `ZWSP` is not pushed; it records the current glyph count as the
soft-break index.  Any other character is pushed, and if the pen then exceeds
`max_width` and a soft-break index was recorded, the glyphs from that index on
move to a new line (in actual runs the recorded index is a previous length of
the glyph list, hence in range; the code reads `glyphs.get(i)` with a `0.0`
default for the shift amount). -/
def layoutStep (fm : FontMetrics) (max_width : ℚ) (s : LayoutState) (c : Char) : LayoutState :=
  let x1 := advancedX fm s c
  if c = ' ' ∨ c = ZWSP then
    { s with x := x1, last := some c, last_softbreak := some s.glyphs.length }
  else
    let glyphs := s.glyphs ++ [placedGlyph fm s c]
    if max_width < x1 then
      match s.last_softbreak with
      | some i =>
          let y1 := s.y + fm.height + fm.line_gap
          let x_diff := ((glyphs.get? i).map Glyph.x).getD 0
          { glyphs :=
              glyphs.take i
                ++ (glyphs.drop i).map fun g => { g with x := g.x - x_diff, y := y1 }
            x := x1 - x_diff
            y := y1
            last_softbreak := none
            last := some c }
      | none =>
          { glyphs := glyphs, x := x1, y := s.y, last_softbreak := none, last := some c }
    else
      { glyphs := glyphs, x := x1, y := s.y, last_softbreak := s.last_softbreak
        last := some c }

/-- Per-line reset: `x = 0.0`, no recorded soft break, no kerning context
(ui/font.rs lines 110-115). -/
def lineStart (s : LayoutState) : LayoutState :=
  { s with x := 0, last_softbreak := none, last := none }

/-- Lay out one line, then advance the baseline by `height() + line_gap()`
(ui/font.rs lines 109-149). -/
def layoutLine (fm : FontMetrics) (max_width : ℚ) (s : LayoutState) (line : List Char) :
    LayoutState :=
  let s1 := line.foldl (layoutStep fm max_width) (lineStart s)
  { s1 with y := s1.y + fm.height + fm.line_gap }

/-- Split a character list at every newline (the underlying splitter of Rust's
`str::lines`, ui/font.rs line 109). -/
def splitLines : List Char → List (List Char)
  | [] => [[]]
  | c :: rest =>
      if c = '\n' then [] :: splitLines rest
      else
        match splitLines rest with
        | [] => [[c]]
        | l :: ls => (c :: l) :: ls

/-- Strip one trailing carriage return from a newline-terminated segment
(Rust `str::lines` treats `\r\n` as a line terminator). -/
def stripCr (l : List Char) : List Char :=
  if l.getLast? = some '\r' then l.dropLast else l

/-- Rust `str::lines`: newline-separated segments, without a final empty
segment produced by a trailing newline; every newline-terminated segment
loses a trailing `\r`. -/
def rustLines (text : List Char) : List (List Char) :=
  let segs := splitLines text
  let init := (segs.dropLast).map stripCr
  match segs.getLast? with
  | some [] => init
  | some lastSeg => init ++ [lastSeg]
  | none => init

/-- `Renderer::layout` (ui/font.rs lines 105-155) up to the final
`outline_glyph` filtering: the positioned glyphs of all lines. -/
def layout (fm : FontMetrics) (max_width : ℚ) (text : List Char) : List Glyph :=
  ((rustLines text).foldl (layoutLine fm max_width)
    { glyphs := [], x := 0, y := 0, last_softbreak := none, last := none }).glyphs

/-- A concrete font for examples: every glyph advances 10, no kerning, line
height 10, line gap 2. -/
def fmEx : FontMetrics :=
  { h_advance := fun _ => 10, kern := fun _ _ => 0, height := 10, line_gap := 2 }

/-- Example text with an ordinary breakable space. -/
def exSpaceText : List Char := ['a', 'b', ' ', 'c', 'd']

/-- The same example text with the space replaced by a non-breaking space. -/
def exNbspText : List Char := ['a', 'b', NBSP, 'c', 'd']

/-- A concrete mid-line layout state: glyphs "ab" placed, the pen just past a
space (x = 30) that recorded soft-break index 2. -/
def sBreak : LayoutState :=
  { glyphs := [⟨'a', 0, 0⟩, ⟨'b', 10, 0⟩], x := 30, y := 0
    last_softbreak := some 2, last := some ' ' }

/-! ## Helper lemmas about the layout computation -/

theorem length_cast_pred (ts : List Size) (hne : ts ≠ []) :
    ((ts.length - 1 : Nat) : Int) = (ts.length : Int) - 1 := by
  have : 1 ≤ ts.length := List.length_pos.mpr hne
  omega

theorem btnWidth_eq (iconSize msgSize : Size) (btnTexts : List Size) (hne : btnTexts ≠ []) :
    btnWidth iconSize msgSize btnTexts = some (btnWidthVal iconSize msgSize btnTexts) := by
  have h : (btnTexts.length : Int) ≠ 0 := by
    have : 1 ≤ btnTexts.length := List.length_pos.mpr hne
    omega
  simp [btnWidth, btnWidthVal, checkedDiv, h]

/-- Characterization of `uiNew` on a non-empty button list. -/
theorem uiNew_eq (iconSize msgSize : Size) (ts : List Size) (hne : ts ≠ []) :
    uiNew iconSize msgSize ts = some
      { win_width := winWidth iconSize msgSize ts
        win_height := winHeight iconSize msgSize ts
        icon_pos := ⟨WINDOW_PADDING, WINDOW_PADDING⟩
        message_pos := ⟨iconSize.width + WINDOW_PADDING + SPACING, messagePosY iconSize msgSize ts⟩
        buttons :=
          placeButtons (btnWidthVal iconSize msgSize ts) (btnRowHeight ts)
            (winHeight iconSize msgSize ts - WINDOW_PADDING - btnRowHeight ts)
            WINDOW_PADDING (ts.map mkButton)
        btn_height := btnRowHeight ts } := by
  rw [uiNew, btnWidth_eq _ _ _ hne]

theorem placeButtons_length (bw bh py x : Int) (bs : List Button) :
    (placeButtons bw bh py x bs).length = bs.length := by
  induction bs generalizing x with
  | nil => rfl
  | cons b rest ih => simp [placeButtons, ih]

theorem placeButtons_getElem? (bw bh py : Int) (bs : List Button) (x : Int) (j : Nat) :
    (placeButtons bw bh py x bs)[j]? =
      bs[j]?.map fun b =>
        { b with size := ⟨bw, bh⟩, pos := ⟨x + (j : Int) * (bw + SPACING), py⟩ } := by
  induction bs generalizing x j with
  | nil => simp [placeButtons]
  | cons b rest ih =>
    cases j with
    | zero => simp [placeButtons]
    | succ k =>
      have hx : x + bw + SPACING + (k : Int) * (bw + SPACING)
          = x + ((k : Int) + 1) * (bw + SPACING) := by ring
      simp only [placeButtons, List.getElem?_cons_succ, ih, hx]
      push_cast
      ring_nf

theorem placeButtons_get (bw bh py x : Int) (bs : List Button) (j : Nat)
    (hj : j < (placeButtons bw bh py x bs).length) (hjb : j < bs.length) :
    (placeButtons bw bh py x bs)[j]
      = { bs[j] with size := ⟨bw, bh⟩, pos := ⟨x + (j : Int) * (bw + SPACING), py⟩ } := by
  have h2 := placeButtons_getElem? bw bh py bs x j
  rw [List.getElem?_eq_getElem hjb, List.getElem?_eq_getElem hj] at h2
  simpa using h2

theorem placeButtons_mem (bw bh py x : Int) (bs : List Button) (b : Button)
    (hb : b ∈ placeButtons bw bh py x bs) :
    ∃ j : Nat, j < bs.length ∧ b.size = ⟨bw, bh⟩
      ∧ b.pos = ⟨x + (j : Int) * (bw + SPACING), py⟩ := by
  induction bs generalizing x with
  | nil => cases hb
  | cons c rest ih =>
    rcases List.mem_cons.mp hb with rfl | hmem
    · refine ⟨0, by simp, rfl, ?_⟩
      simp
    · obtain ⟨j, hjl, hs, hp⟩ := ih _ hmem
      refine ⟨j + 1, by simp only [List.length_cons]; omega, hs, ?_⟩
      rw [hp]
      have : x + bw + SPACING + (j : Int) * (bw + SPACING)
          = x + ((j : Int) + 1) * (bw + SPACING) := by ring
      rw [this]
      push_cast
      ring_nf

theorem placeButtons_map_min_size (bw bh py x : Int) (bs : List Button) :
    (placeButtons bw bh py x bs).map Button.min_size = bs.map Button.min_size := by
  induction bs generalizing x with
  | nil => rfl
  | cons b rest ih => simp [placeButtons, ih]

theorem le_foldl_max (f : Size → Int) (ts : List Size) (a : Int) :
    a ≤ ts.foldl (fun acc t => max acc (f t)) a := by
  induction ts generalizing a with
  | nil => exact le_refl a
  | cons t rest ih => exact le_trans (le_max_left a (f t)) (ih (max a (f t)))

theorem mem_le_foldl_max (f : Size → Int) (ts : List Size) (a : Int) (t : Size) (ht : t ∈ ts) :
    f t ≤ ts.foldl (fun acc t => max acc (f t)) a := by
  induction ts generalizing a with
  | nil => cases ht
  | cons u rest ih =>
    rcases List.mem_cons.mp ht with rfl | hmem
    · exact le_trans (le_max_right a (f t)) (le_foldl_max f rest _)
    · exact ih _ hmem

theorem btnRowHeight_nonneg (ts : List Size) : 0 ≤ btnRowHeight ts :=
  le_foldl_max _ ts 0

theorem min_height_le_btnRowHeight (ts : List Size) (t : Size) (ht : t ∈ ts) :
    t.height + 2 * BTN_PADDING ≤ btnRowHeight ts :=
  mem_le_foldl_max (fun t => (mkButton t).min_size.height) ts 0 t ht

/-- For a non-empty list of button texts with non-negative heights, the code's
running maximum (started at 0) agrees with the spec's maximum over the list. -/
theorem btnRowHeight_eq_spec (ts : List Size) (hne : ts ≠ [])
    (hh : ∀ t ∈ ts, 0 ≤ t.height) : btnRowHeight ts = specBtnRowHeight ts := by
  cases ts with
  | nil => exact absurd rfl hne
  | cons t rest =>
    have h0 : (0 : Int) ≤ t.height + 2 * BTN_PADDING := by
      have := hh t (List.mem_cons_self t rest)
      simp [BTN_PADDING]
      omega
    have hmax : max 0 ((mkButton t).min_size.height) = (mkButton t).min_size.height := by
      simp [mkButton]
      omega
    simp only [btnRowHeight, specBtnRowHeight, List.map_cons, List.foldl_cons, hmax]
    rw [List.foldl_map]
    rfl

theorem required_le_winWidth (iconSize msgSize : Size) (ts : List Size) (hne : ts ≠ []) :
    (ts.map fun t => (mkButton t).min_size.width).sum + 2 * WINDOW_PADDING
      + SPACING * ((ts.length : Int) - 1) ≤ winWidth iconSize msgSize ts := by
  have h1 := length_cast_pred ts hne
  simp only [winWidth, h1]
  rw [mul_comm SPACING ((ts.length : Int) - 1)]
  exact le_max_right _ _

theorem min_width_le_winWidth (iconSize msgSize : Size) (ts : List Size) :
    MIN_WIDTH ≤ winWidth iconSize msgSize ts := by
  simp only [winWidth]
  exact le_trans (le_max_left _ _) (le_max_left _ _)

theorem message_height_le_winHeight (iconSize msgSize : Size) (ts : List Size) :
    msgSize.height + btnRowHeight ts + SPACING + 2 * WINDOW_PADDING
      ≤ winHeight iconSize msgSize ts := by
  simp only [winHeight]
  exact le_trans (le_max_left _ _) (le_max_right _ _)

theorem icon_height_le_winHeight (iconSize msgSize : Size) (ts : List Size) :
    iconSize.height + btnRowHeight ts + SPACING * 2 + WINDOW_PADDING
      ≤ winHeight iconSize msgSize ts := by
  simp only [winHeight]
  exact le_trans (le_max_right _ _) (le_max_right _ _)

/-- Bounds on the computed button width `bw = avail.tdiv n`: it is non-negative,
`n * bw` does not exceed the available width, and the truncating division
coincides with the Euclidean one (both operands being non-negative), provided
the label widths are non-negative. -/
theorem btnWidthVal_bounds (iconSize msgSize : Size) (ts : List Size) (hne : ts ≠ [])
    (hw : ∀ t ∈ ts, 0 ≤ t.width) :
    0 ≤ btnWidthVal iconSize msgSize ts
    ∧ (ts.length : Int) * btnWidthVal iconSize msgSize ts
        ≤ winWidth iconSize msgSize ts - WINDOW_PADDING * 2
          - SPACING * ((ts.length : Int) - 1)
    ∧ btnWidthVal iconSize msgSize ts
        = (winWidth iconSize msgSize ts - WINDOW_PADDING * 2
            - SPACING * ((ts.length : Int) - 1)) / (ts.length : Int) := by
  set n : Int := (ts.length : Int) with hn
  have hnpos : 0 < n := by
    have : 1 ≤ ts.length := List.length_pos.mpr hne
    omega
  have hsum : 0 ≤ (ts.map fun t => (mkButton t).min_size.width).sum := by
    apply List.sum_nonneg
    intro x hx
    obtain ⟨t, ht, rfl⟩ := List.mem_map.mp hx
    have := hw t ht
    simp [mkButton, BTN_PADDING]
    omega
  have havail : 0 ≤ winWidth iconSize msgSize ts - WINDOW_PADDING * 2
      - SPACING * (n - 1) := by
    have := required_le_winWidth iconSize msgSize ts hne
    simp only [WINDOW_PADDING, SPACING] at *
    omega
  have htd : btnWidthVal iconSize msgSize ts
      = (winWidth iconSize msgSize ts - WINDOW_PADDING * 2 - SPACING * (n - 1)) / n := by
    rw [btnWidthVal, Int.tdiv_eq_ediv havail (le_of_lt hnpos)]
  refine ⟨?_, ?_, htd⟩
  · rw [htd]
    exact Int.ediv_nonneg havail (le_of_lt hnpos)
  · rw [htd]
    have hmod := Int.emod_nonneg
      (winWidth iconSize msgSize ts - WINDOW_PADDING * 2 - SPACING * (n - 1)) (ne_of_gt hnpos)
    have hdm := Int.ediv_add_emod
      (winWidth iconSize msgSize ts - WINDOW_PADDING * 2 - SPACING * (n - 1)) n
    omega

/-- **C1** (counterexample). The claim asserts that processing a left-button
release clears the `pressed` and `dragging` flags *unconditionally, including
the case where an Answer is produced*.  It does not: in `exPressedState` the
release produces `Answer::Button(0)` via an early `return`, skipping the two
clearing assignments, so `mouse_pressed` is still `true` afterwards. -/
theorem C1_flags_not_cleared_on_answer :
    (processEvent exPressedState (.ButtonRelease .Left)).2 = some (.Button 0)
      ∧ (processEvent exPressedState (.ButtonRelease .Left)).1.mouse_pressed = true := by
  decide

/-- **C1** (amended). Processing a left-mouse-button release: if a cursor
position is recorded, some button's bounds contain it (with `i` the index of
the first containing button, 0 being the first in the list) and the dragging
flag is false, `process_event` returns the terminal `Answer::Button(i)` *and
leaves the state unchanged* (the early return skips the flag clearing; the
machine terminates, so the stale flags are never observed); in every other
case it returns no answer and clears the `pressed` and `dragging` flags. -/
theorem C1_button_release_spec :
    (∀ (s : UiState) (p : IntPoint) (i : Nat),
        s.cursor_pos = some p →
        s.buttons.findIdx? (fun btn => btn.contains p) = some i →
        s.mouse_dragging = false →
        processEvent s (.ButtonRelease .Left) = (s, some (.Button i)))
    ∧ (∀ s : UiState,
        (s.cursor_pos = none
          ∨ (∃ p, s.cursor_pos = some p
              ∧ s.buttons.findIdx? (fun btn => btn.contains p) = none)
          ∨ s.mouse_dragging = true) →
        processEvent s (.ButtonRelease .Left) =
          ({ s with mouse_pressed := false, mouse_dragging := false }, none)) := by
  constructor
  · intro s p i hp hfind hdrag
    simp [processEvent, hp, hfind, hdrag]
  · intro s h
    rcases h with h | ⟨p, hp, hfind⟩ | h
    · simp [processEvent, h]
    · simp [processEvent, hp, hfind]
    · cases hc : s.cursor_pos with
      | none => simp [processEvent, hc]
      | some p =>
        cases hf : s.buttons.findIdx? (fun btn => btn.contains p) with
        | none => simp [processEvent, hc, hf]
        | some i => simp [processEvent, hc, hf, h]

/-- Witness for `C1_button_release_spec` at `exPressedState`. -/
theorem C1_button_release_spec_witness :
    processEvent exPressedState (.ButtonRelease .Left) = (exPressedState, some (.Button 0)) :=
  C1_button_release_spec.1 exPressedState ⟨5, 5⟩ 0 rfl (by decide) rfl

/-- **C2**. Cursor enter/move record the position and set `dragging := pressed`,
cursor leave clears the position.  Consequently, from the initial state of any
dialog whose first button contains the point `p`: press inside button 0 then
leave (or move anywhere) before releasing yields no `Answer::Button(0)`, while
press and release with no intervening motion yields `Answer::Button(0)`. -/
theorem C2_click_suppression (bs : List Button) (b0 : Button) (p q : CursorPos)
    (hb : bs.head? = some b0)
    (hc : b0.contains ⟨p.x, p.y⟩ = true) :
    (∀ (s : UiState) (r : CursorPos),
        processEvent s (.CursorEnter r)
            = ({ s with
                  cursor_pos := some ⟨r.x, r.y⟩
                  mouse_dragging := s.mouse_pressed }, none)
        ∧ processEvent s (.CursorMove r)
            = ({ s with
                  cursor_pos := some ⟨r.x, r.y⟩
                  mouse_dragging := s.mouse_pressed }, none)
        ∧ processEvent s .CursorLeave = ({ s with cursor_pos := none }, none))
    ∧ run (initialState bs)
        [.CursorEnter p, .ButtonPress .Left, .CursorLeave, .ButtonRelease .Left] = none
    ∧ (run (initialState bs)
        [.CursorEnter p, .ButtonPress .Left, .CursorMove q, .ButtonRelease .Left] = none)
    ∧ run (initialState bs)
        [.CursorEnter p, .ButtonPress .Left, .ButtonRelease .Left] = some (.Button 0) := by
  refine ⟨fun s r => ⟨rfl, rfl, rfl⟩, ?_⟩
  cases bs with
  | nil => simp at hb
  | cons b t =>
    have hb0 : b = b0 := by simpa using hb
    subst hb0
    refine ⟨?_, ?_, ?_⟩
    · simp [run, processEvent, initialState]
    · cases hf : List.findIdx? (fun btn => btn.contains ⟨q.x, q.y⟩) (b :: t) with
      | none => simp [run, processEvent, initialState, hf]
      | some i => simp [run, processEvent, initialState, hf]
    · simp [run, processEvent, initialState, List.findIdx?_cons, hc]

/-- Witness for `C2_click_suppression` on a concrete one-button dialog. -/
theorem C2_click_suppression_witness :
    run (initialState [exButton])
        [.CursorEnter ⟨5, 5⟩, .ButtonPress .Left, .ButtonRelease .Left] = some (.Button 0) :=
  (C2_click_suppression [exButton] exButton ⟨5, 5⟩ ⟨200, 200⟩ rfl (by decide)).2.2.2

/-- **C3**. A close request at any interaction state immediately yields
`Answer::Closed` (leaving the state untouched), and the event loop stops at a
terminal answer: whatever events follow the close request are never
processed. -/
theorem C3_close_priority (s : UiState) (rest : List WindowEvent) :
    processEvent s .CloseRequested = (s, some .Closed)
    ∧ run s (.CloseRequested :: rest) = some .Closed := by
  exact ⟨rfl, by simp [run, processEvent]⟩

/-- **C6**. For every icon size, message surface and non-empty button list
(with the non-negative text heights actual rendering produces), `Ui::new`
computes the window width and height by the spec's `max` formulas, each
button's minimum size is its text size plus `2 * BTN_PADDING` per axis, the
button row height is the maximum of the button minimum heights, and the
constants have the stated values (`W_MIN = 400`, `H_MIN = 100`,
`P = WINDOW_PADDING = 10`, `S = SPACING = 10`). -/
theorem C6_window_size (iconSize msgSize : Size) (ts : List Size) (L : UiLayout)
    (hne : ts ≠ []) (hh : ∀ t ∈ ts, 0 ≤ t.height)
    (hL : uiNew iconSize msgSize ts = some L) :
    L.win_width = specWinWidth iconSize msgSize ts
    ∧ L.win_height = specWinHeight iconSize msgSize ts
    ∧ L.btn_height = specBtnRowHeight ts
    ∧ L.buttons.map Button.min_size = ts.map specBtnMinSize
    ∧ MIN_WIDTH = 400 ∧ MIN_HEIGHT = 100 ∧ WINDOW_PADDING = 10 ∧ SPACING = 10 := by
  rw [uiNew_eq _ _ _ hne] at hL
  injection hL with hL
  subst hL
  have hbro := btnRowHeight_eq_spec ts hne hh
  refine ⟨?_, ?_, ?_, ?_, rfl, rfl, rfl, rfl⟩
  · have h1 := length_cast_pred ts hne
    simp only [winWidth, specWinWidth, h1, specBtnMinSize, mkButton]
    rw [max_assoc, mul_comm ((ts.length : Int) - 1) SPACING]
  · simp only [winHeight, specWinHeight, hbro]
    rw [mul_comm SPACING 2]
  · exact hbro
  · rw [placeButtons_map_min_size, List.map_map]
    apply List.map_congr_left
    intro t _
    simp [Function.comp, mkButton, specBtnMinSize]

/-- Witness for `C6_window_size` on the concrete two-button example layout. -/
theorem C6_window_size_witness :
    exLayout.win_width = specWinWidth exIcon exMsg exBtnTexts
    ∧ exLayout.win_height = specWinHeight exIcon exMsg exBtnTexts
    ∧ exLayout.btn_height = specBtnRowHeight exBtnTexts
    ∧ exLayout.buttons.map Button.min_size = exBtnTexts.map specBtnMinSize
    ∧ MIN_WIDTH = 400 ∧ MIN_HEIGHT = 100 ∧ WINDOW_PADDING = 10 ∧ SPACING = 10 :=
  C6_window_size exIcon exMsg exBtnTexts exLayout (by decide) (by decide) (by decide)

/-- **C7**. In every layout from a non-empty button list: every button's width
is `(windowWidth - 2P - S*(count-1))` divided by `count` with Rust's truncating
integer division, every button's height is the shared row height, all buttons
sit at `y = windowHeight - P - rowHeight`, and button `j` sits at
`x = P + j * (buttonWidth + S)` (left-to-right, each offset from the first by
the preceding buttons' widths plus spacing). -/
theorem C7_button_placement (iconSize msgSize : Size) (ts : List Size) (L : UiLayout)
    (hne : ts ≠ []) (hL : uiNew iconSize msgSize ts = some L) :
    L.buttons.length = ts.length
    ∧ ∀ (j : Nat) (hj : j < L.buttons.length),
        (L.buttons[j]).size.width
            = (L.win_width - 2 * WINDOW_PADDING - SPACING * ((ts.length : Int) - 1)).tdiv
              (ts.length : Int)
        ∧ (L.buttons[j]).size.height = L.btn_height
        ∧ (L.buttons[j]).pos.y = L.win_height - WINDOW_PADDING - L.btn_height
        ∧ (L.buttons[j]).pos.x
            = WINDOW_PADDING + (j : Int) * ((L.buttons[j]).size.width + SPACING) := by
  rw [uiNew_eq _ _ _ hne] at hL
  injection hL with hL
  subst hL
  have hlen : ∀ bw bh py x, (placeButtons bw bh py x (ts.map mkButton)).length = ts.length := by
    intro bw bh py x
    rw [placeButtons_length, List.length_map]
  refine ⟨by simp [hlen], ?_⟩
  intro j hj
  have hjts : j < ts.length := by
    simpa [hlen] using hj
  have h2 :
      (placeButtons (btnWidthVal iconSize msgSize ts) (btnRowHeight ts)
          (winHeight iconSize msgSize ts - WINDOW_PADDING - btnRowHeight ts)
          WINDOW_PADDING (ts.map mkButton))[j]?
        = some { mkButton (ts.get ⟨j, hjts⟩) with
            size := ⟨btnWidthVal iconSize msgSize ts, btnRowHeight ts⟩
            pos := ⟨WINDOW_PADDING + (j : Int) * (btnWidthVal iconSize msgSize ts + SPACING),
              winHeight iconSize msgSize ts - WINDOW_PADDING - btnRowHeight ts⟩ } := by
    rw [placeButtons_getElem?, List.getElem?_map, List.getElem?_eq_getElem hjts]
    rfl
  rw [List.getElem?_eq_getElem hj] at h2
  have hget := Option.some.inj h2
  rw [hget]
  exact ⟨rfl, rfl, rfl, rfl⟩

/-- Witness for `C7_button_placement`: the second button of the concrete
example layout. -/
theorem C7_button_placement_witness :
    exLayout.buttons.length = exBtnTexts.length
    ∧ ((exLayout.buttons.get ⟨1, by decide⟩).size.width
          = (exLayout.win_width - 2 * WINDOW_PADDING
              - SPACING * ((exBtnTexts.length : Int) - 1)).tdiv (exBtnTexts.length : Int)
        ∧ (exLayout.buttons.get ⟨1, by decide⟩).size.height = exLayout.btn_height
        ∧ (exLayout.buttons.get ⟨1, by decide⟩).pos.y
          = exLayout.win_height - WINDOW_PADDING - exLayout.btn_height
        ∧ (exLayout.buttons.get ⟨1, by decide⟩).pos.x
          = WINDOW_PADDING
            + (1 : Int) * ((exLayout.buttons.get ⟨1, by decide⟩).size.width + SPACING)) :=
  ⟨(C7_button_placement exIcon exMsg exBtnTexts exLayout (by decide) (by decide)).1,
   (C7_button_placement exIcon exMsg exBtnTexts exLayout (by decide) (by decide)).2 1 (by decide)⟩

/-- **C8**. Every layout from `Ui::new` (non-empty button list, non-negative
surface sizes, as actual rendering produces): each button's rectangle lies
fully within `[0, windowWidth) x [0, windowHeight)`, no two distinct buttons'
rectangles share a point, and the message rectangle shares a point with
neither the icon rectangle nor any button's rectangle. -/
theorem C8_layout_invariants (iconSize msgSize : Size) (ts : List Size) (L : UiLayout)
    (hne : ts ≠ [])
    (hiw : 0 ≤ iconSize.width) (hih : 0 ≤ iconSize.height)
    (hmw : 0 ≤ msgSize.width) (hmh : 0 ≤ msgSize.height)
    (hts : ∀ t ∈ ts, 0 ≤ t.width ∧ 0 ≤ t.height)
    (hL : uiNew iconSize msgSize ts = some L) :
    (∀ b ∈ L.buttons,
        0 ≤ b.pos.x ∧ 0 ≤ b.pos.y
          ∧ b.pos.x + b.size.width ≤ L.win_width
          ∧ b.pos.y + b.size.height ≤ L.win_height)
    ∧ (∀ (i j : Nat) (hi : i < L.buttons.length) (hj : j < L.buttons.length), i ≠ j →
        ∀ pt : IntPoint,
          ¬((L.buttons[i]).contains pt = true ∧ (L.buttons[j]).contains pt = true))
    ∧ (∀ pt : IntPoint,
        ¬(rectContains L.message_pos msgSize pt = true
            ∧ rectContains L.icon_pos iconSize pt = true))
    ∧ (∀ b ∈ L.buttons, ∀ pt : IntPoint,
        ¬(rectContains L.message_pos msgSize pt = true ∧ b.contains pt = true)) := by
  rw [uiNew_eq _ _ _ hne] at hL
  injection hL with hL
  subst hL
  dsimp only
  obtain ⟨hbw0, hnbw, -⟩ := btnWidthVal_bounds iconSize msgSize ts hne (fun t ht => (hts t ht).1)
  simp only [SPACING, WINDOW_PADDING] at hnbw
  have hn1 : (1 : Int) ≤ (ts.length : Int) := by
    have := List.length_pos.mpr hne
    omega
  have hbh0 : 0 ≤ btnRowHeight ts := btnRowHeight_nonneg ts
  have hWmin : (400 : Int) ≤ winWidth iconSize msgSize ts := by
    have := min_width_le_winWidth iconSize msgSize ts
    simpa [MIN_WIDTH] using this
  have hHmsg : msgSize.height + btnRowHeight ts + 30 ≤ winHeight iconSize msgSize ts := by
    have := message_height_le_winHeight iconSize msgSize ts
    simp only [SPACING, WINDOW_PADDING] at this
    linarith
  have hHicon : iconSize.height + btnRowHeight ts + 30 ≤ winHeight iconSize msgSize ts := by
    have := icon_height_le_winHeight iconSize msgSize ts
    simp only [SPACING, WINDOW_PADDING] at this
    linarith
  -- message bottom edge stays above the button row
  have hmYle : messagePosY iconSize msgSize ts + msgSize.height
      ≤ winHeight iconSize msgSize ts - btnRowHeight ts - 20 := by
    have hd0 : 0 ≤ winHeight iconSize msgSize ts - btnRowHeight ts
        - WINDOW_PADDING * 2 - SPACING - msgSize.height := by
      simp only [SPACING, WINDOW_PADDING]
      linarith
    have htd := Int.tdiv_eq_ediv hd0 (by norm_num : (0:Int) ≤ 2)
    have hle := Int.ediv_le_self 2 hd0
    rw [messagePosY, htd]
    simp only [SPACING, WINDOW_PADDING] at hle ⊢
    linarith
  refine ⟨?_, ?_, ?_, ?_⟩
  · -- containment
    intro b hb
    obtain ⟨j, hjl, hsize, hpos⟩ := placeButtons_mem _ _ _ _ _ b hb
    rw [List.length_map] at hjl
    have hj1 : (j : Int) ≤ (ts.length : Int) - 1 := by omega
    have hstep : (0 : Int) ≤ btnWidthVal iconSize msgSize ts + SPACING := by
      simp only [SPACING]
      linarith
    have hjnn : (0 : Int) ≤ (j : Int) * (btnWidthVal iconSize msgSize ts + SPACING) :=
      mul_nonneg (Int.natCast_nonneg j) hstep
    have hprod : (j : Int) * (btnWidthVal iconSize msgSize ts + SPACING)
        ≤ ((ts.length : Int) - 1) * (btnWidthVal iconSize msgSize ts + SPACING) :=
      mul_le_mul_of_nonneg_right hj1 hstep
    rw [hsize, hpos]
    simp only [SPACING, WINDOW_PADDING] at hjnn hprod ⊢
    refine ⟨by linarith, by linarith, by nlinarith, by linarith⟩
  · -- pairwise disjointness
    intro i j hi hj hij pt
    rintro ⟨hci, hcj⟩
    have hil : i < ts.length := by
      have := hi
      rw [placeButtons_length, List.length_map] at this
      exact this
    have hjl : j < ts.length := by
      have := hj
      rw [placeButtons_length, List.length_map] at this
      exact this
    have hib : i < (ts.map mkButton).length := by rw [List.length_map]; exact hil
    have hjb : j < (ts.map mkButton).length := by rw [List.length_map]; exact hjl
    rw [placeButtons_get _ _ _ _ _ i hi hib] at hci
    rw [placeButtons_get _ _ _ _ _ j hj hjb] at hcj
    simp only [Button.contains, Bool.and_eq_true, decide_eq_true_eq, and_assoc] at hci hcj
    obtain ⟨hix, _, hix2, _⟩ := hci
    obtain ⟨hjx, _, hjx2, _⟩ := hcj
    simp only [SPACING, WINDOW_PADDING] at hix hix2 hjx hjx2
    have hstep : (0 : Int) ≤ btnWidthVal iconSize msgSize ts + 10 := by linarith
    have key : ∀ (a c : Nat), a < c →
        pt.x < 10 + (a : Int) * (btnWidthVal iconSize msgSize ts + 10)
            + btnWidthVal iconSize msgSize ts →
        10 + (c : Int) * (btnWidthVal iconSize msgSize ts + 10) ≤ pt.x → False := by
      intro a c hac h1 h2
      have hd : (1 : Int) ≤ (c : Int) - (a : Int) := by omega
      have hmul : (btnWidthVal iconSize msgSize ts + 10) * 1
          ≤ (btnWidthVal iconSize msgSize ts + 10) * ((c : Int) - (a : Int)) :=
        mul_le_mul_of_nonneg_left hd hstep
      nlinarith
    rcases Nat.lt_or_ge i j with hlt | hge
    · exact key i j hlt (by linarith) (by linarith)
    · have hlt : j < i := by omega
      exact key j i hlt (by linarith) (by linarith)
  · -- message vs icon: horizontal separation
    intro pt
    rintro ⟨hm, hic⟩
    simp only [rectContains, Bool.and_eq_true, decide_eq_true_eq, and_assoc] at hm hic
    obtain ⟨hm1, -, -, -⟩ := hm
    obtain ⟨-, -, hic3, -⟩ := hic
    simp only [SPACING, WINDOW_PADDING] at hm1 hic3
    linarith
  · -- message vs button row: vertical separation
    intro b hb pt
    rintro ⟨hm, hc⟩
    obtain ⟨j, hjl, hsize, hpos⟩ := placeButtons_mem _ _ _ _ _ b hb
    simp only [rectContains, Bool.and_eq_true, decide_eq_true_eq, and_assoc] at hm
    simp only [Button.contains, Bool.and_eq_true, decide_eq_true_eq, and_assoc] at hc
    obtain ⟨-, -, -, hm4⟩ := hm
    obtain ⟨-, hc2, -, -⟩ := hc
    rw [hpos] at hc2
    dsimp only at hm4 hc2
    simp only [SPACING, WINDOW_PADDING] at hm4 hc2
    linarith

/-- Witness for `C8_layout_invariants`, instantiated on the concrete two-button
example layout: containment of its first button, disjointness of its two
buttons at the point (207, 70), and message/icon and message/button
separation at sample points. -/
theorem C8_layout_invariants_witness :
    (0 ≤ (exLayout.buttons.get ⟨0, by decide⟩).pos.x
      ∧ 0 ≤ (exLayout.buttons.get ⟨0, by decide⟩).pos.y
      ∧ (exLayout.buttons.get ⟨0, by decide⟩).pos.x
          + (exLayout.buttons.get ⟨0, by decide⟩).size.width ≤ exLayout.win_width
      ∧ (exLayout.buttons.get ⟨0, by decide⟩).pos.y
          + (exLayout.buttons.get ⟨0, by decide⟩).size.height ≤ exLayout.win_height)
    ∧ ¬((exLayout.buttons.get ⟨0, by decide⟩).contains ⟨207, 70⟩ = true
        ∧ (exLayout.buttons.get ⟨1, by decide⟩).contains ⟨207, 70⟩ = true)
    ∧ ¬(rectContains exLayout.message_pos exMsg ⟨60, 30⟩ = true
        ∧ rectContains exLayout.icon_pos exIcon ⟨60, 30⟩ = true)
    ∧ ¬(rectContains exLayout.message_pos exMsg ⟨70, 70⟩ = true
        ∧ (exLayout.buttons.get ⟨0, by decide⟩).contains ⟨70, 70⟩ = true) :=
  ⟨(C8_layout_invariants exIcon exMsg exBtnTexts exLayout (by decide) (by decide) (by decide)
      (by decide) (by decide) (by decide) (by decide)).1
        (exLayout.buttons.get ⟨0, by decide⟩) (List.get_mem _ _ _),
   (C8_layout_invariants exIcon exMsg exBtnTexts exLayout (by decide) (by decide) (by decide)
      (by decide) (by decide) (by decide) (by decide)).2.1 0 1 (by decide) (by decide)
        (by decide) ⟨207, 70⟩,
   (C8_layout_invariants exIcon exMsg exBtnTexts exLayout (by decide) (by decide) (by decide)
      (by decide) (by decide) (by decide) (by decide)).2.2.1 ⟨60, 30⟩,
   (C8_layout_invariants exIcon exMsg exBtnTexts exLayout (by decide) (by decide) (by decide)
      (by decide) (by decide) (by decide) (by decide)).2.2.2
        (exLayout.buttons.get ⟨0, by decide⟩) (List.get_mem _ _ _) ⟨70, 70⟩⟩

/-- **C9** (counterexample). The claim asserts equality
`size.width * count + spacing*(count-1) + 2*padding = windowWidth` *whenever*
the natural minimum button-row width governs the window width.  With button
minimum widths 185 and 186, the natural minimum (371 + 20 + 10 = 401) does
govern the window width, yet the integer division `371 / 2 = 185` loses the odd
remainder pixel: `185 * 2 + 10 + 20 = 400 ≠ 401`. -/
theorem C9_remainder_counterexample :
    uiNew ⟨0, 0⟩ ⟨0, 0⟩ exOddTexts = some exOddLayout
    ∧ exOddLayout.win_width
        = (exOddTexts.map fun t => (specBtnMinSize t).width).sum + 2 * WINDOW_PADDING
          + SPACING * ((exOddTexts.length : Int) - 1)
    ∧ ∀ b ∈ exOddLayout.buttons,
        b.size.width * (exOddTexts.length : Int)
            + SPACING * ((exOddTexts.length : Int) - 1) + 2 * WINDOW_PADDING
          ≠ exOddLayout.win_width := by
  decide

/-- **C9** (amended). In every layout from a non-empty button list with
non-negative label widths: all buttons share the same final height, and
`size.width * count + spacing * (count - 1) + 2 * padding ≤ windowWidth`;
equality holds if and only if `count` divides the distributable width
`windowWidth - 2 * padding - spacing * (count - 1)` (so when the natural
minimum button-row width governs the window width, equality holds exactly when
`count` divides the sum of the button minimum widths, not unconditionally). -/
theorem C9_button_row_width (iconSize msgSize : Size) (ts : List Size) (L : UiLayout)
    (hne : ts ≠ []) (hw : ∀ t ∈ ts, 0 ≤ t.width)
    (hL : uiNew iconSize msgSize ts = some L) :
    (∀ b ∈ L.buttons, b.size.height = L.btn_height)
    ∧ (∀ b ∈ L.buttons,
        b.size.width * (ts.length : Int) + SPACING * ((ts.length : Int) - 1)
          + 2 * WINDOW_PADDING ≤ L.win_width)
    ∧ (∀ b ∈ L.buttons,
        (b.size.width * (ts.length : Int) + SPACING * ((ts.length : Int) - 1)
            + 2 * WINDOW_PADDING = L.win_width
          ↔ (ts.length : Int)
              ∣ (L.win_width - 2 * WINDOW_PADDING - SPACING * ((ts.length : Int) - 1)))) := by
  rw [uiNew_eq _ _ _ hne] at hL
  injection hL with hL
  subst hL
  dsimp only
  obtain ⟨hbw0, hnbw, hdiv⟩ := btnWidthVal_bounds iconSize msgSize ts hne hw
  refine ⟨?_, ?_, ?_⟩
  · intro b hb
    obtain ⟨j, hjl, hsize, hpos⟩ := placeButtons_mem _ _ _ _ _ b hb
    rw [hsize]
  · intro b hb
    obtain ⟨j, hjl, hsize, hpos⟩ := placeButtons_mem _ _ _ _ _ b hb
    rw [hsize]
    dsimp only
    linarith
  · intro b hb
    obtain ⟨j, hjl, hsize, hpos⟩ := placeButtons_mem _ _ _ _ _ b hb
    rw [hsize]
    dsimp only
    constructor
    · intro heq
      refine ⟨btnWidthVal iconSize msgSize ts, ?_⟩
      linarith
    · rintro ⟨k, hk⟩
      have hnz : (ts.length : Int) ≠ 0 := by
        have := List.length_pos.mpr hne
        omega
      have : (ts.length : Int) * ((winWidth iconSize msgSize ts - WINDOW_PADDING * 2
          - SPACING * ((ts.length : Int) - 1)) / (ts.length : Int))
          = winWidth iconSize msgSize ts - WINDOW_PADDING * 2
            - SPACING * ((ts.length : Int) - 1) := by
        apply Int.mul_ediv_cancel'
        exact ⟨k, by linarith⟩
      rw [hdiv]
      linarith

/-- Witness for `C9_button_row_width`: the first button of the concrete
two-button example layout (where the distributable width 370 is even, so the
equality side of the iff holds). -/
theorem C9_button_row_width_witness :
    (exLayout.buttons.get ⟨0, by decide⟩).size.height = exLayout.btn_height
    ∧ ((exLayout.buttons.get ⟨0, by decide⟩).size.width * (exBtnTexts.length : Int)
        + SPACING * ((exBtnTexts.length : Int) - 1) + 2 * WINDOW_PADDING
        ≤ exLayout.win_width)
    ∧ ((exLayout.buttons.get ⟨0, by decide⟩).size.width * (exBtnTexts.length : Int)
          + SPACING * ((exBtnTexts.length : Int) - 1) + 2 * WINDOW_PADDING
          = exLayout.win_width
        ↔ (exBtnTexts.length : Int)
            ∣ (exLayout.win_width - 2 * WINDOW_PADDING
                - SPACING * ((exBtnTexts.length : Int) - 1))) :=
  ⟨(C9_button_row_width exIcon exMsg exBtnTexts exLayout (by decide) (by decide) (by decide)).1
      (exLayout.buttons.get ⟨0, by decide⟩) (List.get_mem _ _ _),
   (C9_button_row_width exIcon exMsg exBtnTexts exLayout (by decide) (by decide) (by decide)).2.1
      (exLayout.buttons.get ⟨0, by decide⟩) (List.get_mem _ _ _),
   (C9_button_row_width exIcon exMsg exBtnTexts exLayout (by decide) (by decide) (by decide)).2.2
      (exLayout.buttons.get ⟨0, by decide⟩) (List.get_mem _ _ _)⟩

/-- **C10**. `Ui::new` computes the button width by dividing by the number of
buttons with no zero guard: with an empty button list the `i32` division
panics (modelled by `none`), so callers must pass at least one label; for any
non-empty label list the computation succeeds. -/
theorem C10_empty_button_division (iconSize msgSize : Size) :
    uiNew iconSize msgSize [] = none
    ∧ ∀ ts : List Size, ts ≠ [] → (uiNew iconSize msgSize ts).isSome = true := by
  constructor
  · simp [uiNew, btnWidth, checkedDiv]
  · intro ts hts
    rw [uiNew_eq _ _ _ hts]
    rfl

/-- Witness for `C10_empty_button_division` at the concrete example inputs. -/
theorem C10_empty_button_division_witness :
    uiNew exIcon exMsg [] = none ∧ (uiNew exIcon exMsg exBtnTexts).isSome = true :=
  ⟨(C10_empty_button_division exIcon exMsg).1,
   (C10_empty_button_division exIcon exMsg).2 exBtnTexts (by decide)⟩

/-! ## Helper lemmas about the glyph layout -/

theorem drop_take_map_drop (i : Nat) (G : List Glyph) (f : Glyph → Glyph) :
    (G.take i ++ (G.drop i).map f).drop i = (G.drop i).map f := by
  rcases le_or_lt i G.length with h | h
  · have hlen : (G.take i).length = i := by
      rw [List.length_take]
      omega
    rw [List.drop_left' hlen]
  · have h1 : G.take i = G := List.take_of_length_le (le_of_lt h)
    have h2 : G.drop i = [] := List.drop_eq_nil_of_le (le_of_lt h)
    simp [h1, h2, List.drop_eq_nil_of_le, le_of_lt h]

theorem get?_take_map_drop (i : Nat) (G : List Glyph) (f : Glyph → Glyph) (h : i < G.length) :
    (G.take i ++ (G.drop i).map f).get? i = some (f (G.get ⟨i, h⟩)) := by
  have hlen : (G.take i).length = i := by
    rw [List.length_take]
    omega
  rw [List.get?_eq_getElem?, List.getElem?_append_right (by omega), hlen, Nat.sub_self]
  rw [List.getElem?_map, List.getElem?_drop, Nat.add_zero, List.getElem?_eq_getElem h]
  rfl

/-- In a state with no recorded soft break, a run of non-break characters
never performs a soft break: the marker stays clear, the baseline stays put,
and every glyph (old and new) sits on the current baseline. -/
theorem foldl_layoutStep_nobreak (fm : FontMetrics) (mw : ℚ) (line : List Char) :
    ∀ s : LayoutState, (∀ c ∈ line, ¬(c = ' ' ∨ c = ZWSP)) →
      s.last_softbreak = none → (∀ g ∈ s.glyphs, g.y = s.y) →
      (line.foldl (layoutStep fm mw) s).last_softbreak = none
      ∧ (line.foldl (layoutStep fm mw) s).y = s.y
      ∧ ∀ g ∈ (line.foldl (layoutStep fm mw) s).glyphs, g.y = s.y := by
  induction line with
  | nil => exact fun s _ hsb hy => ⟨hsb, rfl, hy⟩
  | cons c rest ih =>
    intro s hno hsb hy
    have hc : ¬(c = ' ' ∨ c = ZWSP) := hno c (List.mem_cons_self c rest)
    have hstep : layoutStep fm mw s c =
        { glyphs := s.glyphs ++ [placedGlyph fm s c], x := advancedX fm s c, y := s.y
          last_softbreak := none, last := some c } := by
      simp only [layoutStep, hsb]
      rw [if_neg hc]
      split <;> rfl
    rw [List.foldl_cons, hstep]
    have hglyphs : ∀ g ∈ s.glyphs ++ [placedGlyph fm s c], g.y = s.y := by
      intro g hg
      rcases List.mem_append.mp hg with hg | hg
      · exact hy g hg
      · rcases List.mem_singleton.mp hg with rfl
        rfl
    exact ih
      { glyphs := s.glyphs ++ [placedGlyph fm s c], x := advancedX fm s c, y := s.y,
        last_softbreak := none, last := some c }
      (fun c2 hc2 => hno c2 (List.mem_cons_of_mem _ hc2)) rfl hglyphs

theorem splitLines_no_nl (text : List Char) (hnl : '\n' ∉ text) :
    splitLines text = [text] := by
  induction text with
  | nil => rfl
  | cons c rest ih =>
    have hc : ¬(c = '\n') := fun h => hnl (h ▸ List.mem_cons_self c rest)
    have hrest : '\n' ∉ rest := fun h => hnl (List.mem_cons_of_mem _ h)
    simp only [splitLines]
    rw [if_neg hc, ih hrest]

theorem rustLines_no_nl (text : List Char) (hne : text ≠ []) (hnl : '\n' ∉ text) :
    rustLines text = [text] := by
  cases text with
  | nil => exact absurd rfl hne
  | cons c rest =>
    rw [rustLines, splitLines_no_nl _ hnl]
    rfl

/-- Concrete evaluation: with the example font at max width 35, the text
"ab cd" soft-wraps at the space: 'c' and 'd' move to the second baseline. -/
theorem layout_exSpaceText :
    layout fmEx 35 exSpaceText
      = [⟨'a', 0, 0⟩, ⟨'b', 10, 0⟩, ⟨'c', 0, 12⟩, ⟨'d', 10, 12⟩] := by
  norm_num +decide [layout, rustLines, splitLines, stripCr, layoutLine, lineStart, layoutStep,
    advancedX, kernedX, placedGlyph, fmEx, exSpaceText, ZWSP]

/-- Concrete evaluation: the same text with a non-breaking space does not
wrap; the line overflows the max width (the last glyph sits at x = 40). -/
theorem layout_exNbspText :
    layout fmEx 35 exNbspText
      = [⟨'a', 0, 0⟩, ⟨'b', 10, 0⟩, ⟨NBSP, 20, 0⟩, ⟨'c', 30, 0⟩, ⟨'d', 40, 0⟩] := by
  norm_num +decide [layout, rustLines, splitLines, stripCr, layoutLine, lineStart, layoutStep,
    advancedX, kernedX, placedGlyph, fmEx, exNbspText, ZWSP, NBSP]

/-- **C4**. For a placed (non-break) character: if the advanced pen exceeds
the max width and a soft-break index `i` is recorded, the step moves every
glyph from index `i` on (in the accumulated list, the just-placed glyph
included) to a new line — their x is reduced by the x-offset of the glyph at
index `i` (so the glyph now at index `i` sits at x = 0), their y becomes the
new baseline `y + height + line_gap`, the pen baseline advances to it, and the
soft-break marker resets; if no soft-break index is recorded, the glyph list
just grows by the placed glyph, nothing moves and the pen may exceed the max
width (totally, without failure); and when the pen does not exceed the max
width, the step is a plain append that preserves the marker. -/
theorem C4_soft_break (fm : FontMetrics) (mw : ℚ) (s : LayoutState) (c : Char)
    (hc : ¬(c = ' ' ∨ c = ZWSP)) :
    (∀ i, s.last_softbreak = some i → mw < advancedX fm s c →
      ((layoutStep fm mw s c).glyphs
          = (s.glyphs ++ [placedGlyph fm s c]).take i
            ++ ((s.glyphs ++ [placedGlyph fm s c]).drop i).map (fun g =>
                { g with
                  x := g.x
                    - ((((s.glyphs ++ [placedGlyph fm s c]).get? i).map Glyph.x).getD 0)
                  y := s.y + fm.height + fm.line_gap }))
        ∧ (layoutStep fm mw s c).y = s.y + fm.height + fm.line_gap
        ∧ (layoutStep fm mw s c).last_softbreak = none
        ∧ (∀ g ∈ (layoutStep fm mw s c).glyphs.drop i, g.y = s.y + fm.height + fm.line_gap)
        ∧ (i < (s.glyphs ++ [placedGlyph fm s c]).length →
            ((layoutStep fm mw s c).glyphs.get? i).map Glyph.x = some 0))
    ∧ (s.last_softbreak = none →
        (layoutStep fm mw s c).glyphs = s.glyphs ++ [placedGlyph fm s c]
        ∧ (layoutStep fm mw s c).y = s.y
        ∧ (layoutStep fm mw s c).x = advancedX fm s c
        ∧ (layoutStep fm mw s c).last_softbreak = none)
    ∧ (advancedX fm s c ≤ mw →
        (layoutStep fm mw s c).glyphs = s.glyphs ++ [placedGlyph fm s c]
        ∧ (layoutStep fm mw s c).y = s.y
        ∧ (layoutStep fm mw s c).last_softbreak = s.last_softbreak) := by
  refine ⟨?_, ?_, ?_⟩
  · intro i hi hover
    have hstep : layoutStep fm mw s c =
        { glyphs :=
            (s.glyphs ++ [placedGlyph fm s c]).take i
              ++ ((s.glyphs ++ [placedGlyph fm s c]).drop i).map (fun g =>
                  { g with
                    x := g.x
                      - ((((s.glyphs ++ [placedGlyph fm s c]).get? i).map Glyph.x).getD 0)
                    y := s.y + fm.height + fm.line_gap })
          x := advancedX fm s c
            - ((((s.glyphs ++ [placedGlyph fm s c]).get? i).map Glyph.x).getD 0)
          y := s.y + fm.height + fm.line_gap
          last_softbreak := none
          last := some c } := by
      simp only [layoutStep, hi]
      rw [if_neg hc, if_pos hover]
    rw [hstep]
    refine ⟨rfl, rfl, rfl, ?_, ?_⟩
    · intro g hg
      rw [drop_take_map_drop] at hg
      obtain ⟨g0, -, rfl⟩ := List.mem_map.mp hg
      rfl
    · intro hilen
      rw [get?_take_map_drop i _ _ hilen]
      simp [List.get?_eq_getElem?, List.getElem?_eq_getElem hilen]
  · intro hsb
    have hstep : layoutStep fm mw s c =
        { glyphs := s.glyphs ++ [placedGlyph fm s c], x := advancedX fm s c, y := s.y
          last_softbreak := none, last := some c } := by
      simp only [layoutStep, hsb]
      rw [if_neg hc]
      split <;> rfl
    rw [hstep]
    exact ⟨rfl, rfl, rfl, rfl⟩
  · intro hle
    have hstep : layoutStep fm mw s c =
        { glyphs := s.glyphs ++ [placedGlyph fm s c], x := advancedX fm s c, y := s.y
          last_softbreak := s.last_softbreak, last := some c } := by
      simp only [layoutStep]
      rw [if_neg hc, if_neg (not_lt.mpr hle)]
    rw [hstep]
    exact ⟨rfl, rfl, rfl⟩

/-- Witness for `C4_soft_break`: placing 'c' at pen 30 with max width 35 in
`sBreak` overflows (advance 40) and soft-breaks at the recorded index 2. -/
theorem C4_soft_break_witness :
    (layoutStep fmEx 35 sBreak 'c').y = sBreak.y + fmEx.height + fmEx.line_gap
    ∧ (layoutStep fmEx 35 sBreak 'c').last_softbreak = none
    ∧ ((layoutStep fmEx 35 sBreak 'c').glyphs.get? 2).map Glyph.x = some 0 := by
  have h := (C4_soft_break fmEx 35 sBreak 'c' (by decide)).1 2 rfl
    (by norm_num [advancedX, kernedX, fmEx, sBreak])
  exact ⟨h.2.1, h.2.2.1, h.2.2.2.2 (by decide)⟩

/-- **C5**. Exactly the ASCII space and the zero-width space are soft-break
opportunities: a layout step leaves the glyph list unchanged exactly for those
two characters, for which it records the break index and still advances the
pen; the non-breaking space is neither of them; a line containing no space and
no `ZWSP` never soft-wraps (every glyph stays on baseline 0), even when the
pen exceeds the max width; and on the concrete example text, plain-space text
wraps at width 35 (glyph baselines 0,0,12,12) while the same text with `NBSP`
does not (baselines all 0) although its pen exceeds the width (a glyph sits at
x = 40 > 35). -/
theorem C5_break_opportunities :
    (∀ (fm : FontMetrics) (mw : ℚ) (s : LayoutState) (c : Char),
        ((layoutStep fm mw s c).glyphs.length = s.glyphs.length ↔ (c = ' ' ∨ c = ZWSP))
        ∧ ((c = ' ' ∨ c = ZWSP) →
            (layoutStep fm mw s c).last_softbreak = some s.glyphs.length
            ∧ (layoutStep fm mw s c).glyphs = s.glyphs
            ∧ (layoutStep fm mw s c).x = advancedX fm s c))
    ∧ NBSP ≠ ' ' ∧ NBSP ≠ ZWSP
    ∧ (∀ (fm : FontMetrics) (mw : ℚ) (text : List Char),
        (∀ c ∈ text, ¬(c = ' ' ∨ c = ZWSP)) → '\n' ∉ text →
        ∀ g ∈ layout fm mw text, g.y = 0)
    ∧ (layout fmEx 35 exSpaceText).map Glyph.y = [0, 0, 12, 12]
    ∧ (layout fmEx 35 exNbspText).map Glyph.y = [0, 0, 0, 0, 0]
    ∧ ∃ g ∈ layout fmEx 35 exNbspText, 35 < g.x := by
  refine ⟨?_, by decide, by decide, ?_, ?_, ?_, ?_⟩
  · intro fm mw s c
    constructor
    · constructor
      · intro hlen
        by_contra hc
        have hgrow : (layoutStep fm mw s c).glyphs.length = s.glyphs.length + 1 := by
          simp only [layoutStep]
          rw [if_neg hc]
          split
          · split
            · simp [List.length_take, List.length_drop, List.length_append]
              omega
            · simp
          · simp
        omega
      · intro hbrk
        simp [layoutStep, if_pos hbrk]
    · intro hbrk
      refine ⟨?_, ?_, ?_⟩ <;> simp [layoutStep, if_pos hbrk]
  · intro fm mw text hno hnl g hg
    cases text with
    | nil => cases hg
    | cons c0 rest =>
      rw [layout, rustLines_no_nl _ (List.cons_ne_nil c0 rest) hnl] at hg
      simp only [List.foldl_cons, List.foldl_nil] at hg
      dsimp only [layoutLine] at hg
      have hres := foldl_layoutStep_nobreak fm mw (c0 :: rest)
        (lineStart { glyphs := [], x := 0, y := 0, last_softbreak := none, last := none })
        hno rfl (by intro g hg; cases hg)
      exact hres.2.2 g hg
  · rw [layout_exSpaceText]
    rfl
  · rw [layout_exNbspText]
    rfl
  · refine ⟨⟨'d', 40, 0⟩, ?_, by norm_num⟩
    rw [layout_exNbspText]
    simp

/-- Witness for `C5_break_opportunities`: the space step in `sBreak`'s history
and the non-wrapping of the concrete `NBSP` text. -/
theorem C5_break_opportunities_witness :
    ((layoutStep fmEx 35 sBreak ' ').glyphs.length = sBreak.glyphs.length
      ↔ (' ' = ' ' ∨ ' ' = ZWSP))
    ∧ (layoutStep fmEx 35 sBreak ' ').last_softbreak = some sBreak.glyphs.length
    ∧ Glyph.y ⟨'d', 40, 0⟩ = 0 := by
  have h1 := (C5_break_opportunities.1 fmEx 35 sBreak ' ')
  have h3 := C5_break_opportunities.2.2.2.1 fmEx 35 exNbspText (by decide) (by decide)
    ⟨'d', 40, 0⟩ (by rw [layout_exNbspText]; simp)
  exact ⟨h1.1, (h1.2 (Or.inl rfl)).1, h3⟩

end Alerta
